/-
Verification of the TTRPG-C1 detection/audio core against its specification.

Shallow embedding of the Rust sources under src/src-tauri/src/:
  * detection/fsm.rs      — DetectionFsm (dual-signal fusion state machine)
  * detection/vad.rs      — VoiceActivityDetector (energy VAD with hysteresis)
  * detection/keyword.rs  — KeywordVocabulary (exact + fuzzy keyword search, JSON round-trip)
  * inference/emotion.rs  — EmotionAnalyzer (feature-based emotion scores)
  * detection/speaker.rs  — SpeakerEmbedding.cosine_similarity
  * detection/pipeline.rs — DetectionPipeline.process_audio (VAD → FSM forwarding)
  * audio/engine.rs       — AudioEngine.play_track / crossfade_to

Machine floats are modelled as exact rationals (ℚ) where only field operations
occur, and as real numbers (ℝ) where square roots appear.  Rust HashMaps are
modelled as association lists with insert-replaces-key semantics.
-/
import Mathlib

namespace TTRPG

/-! ## detection/fsm.rs -/

/-- `DetectionMode` from fsm.rs. -/
inductive DetectionMode
  | Autonomous
  | Collaborative
deriving DecidableEq, Repr

/-- `DetectionState` from fsm.rs. -/
inductive DetectionState
  | Listening
  | Detecting
  | Locked
  | Cooldown
deriving DecidableEq, Repr

/-- `DetectionEvent` from fsm.rs; `f32` confidences become ℝ. -/
inductive DetectionEvent
  | VoiceDetected
  | VoiceEnded
  | TranscriptionReady (text : String)
  | KeywordMatched (kw : String)
  | EmotionDetected (emotion : String) (conf : ℝ)
  | SpeakerVerified (verified : Bool)
  | Signal1Triggered (kw : String)
  | Signal2Triggered (emotion : String) (conf : ℝ)
  | DualSignalConfirmed (keyword : String) (emotion : String)
  | Timeout
  | CooldownComplete
  | Reset

/-- The `DetectionFsm` struct from fsm.rs. -/
structure DetectionFsm where
  state : DetectionState
  mode : DetectionMode
  signal1_confirmed : Bool
  signal2_confirmed : Bool
  last_keyword : Option String
  last_emotion : Option String
  cooldown_frames : Nat
  max_cooldown_frames : Nat
deriving DecidableEq, Repr

namespace DetectionFsm

/-- `DetectionFsm::new` from fsm.rs. -/
def new : DetectionFsm where
  state := .Listening
  mode := .Autonomous
  signal1_confirmed := false
  signal2_confirmed := false
  last_keyword := none
  last_emotion := none
  cooldown_frames := 0
  max_cooldown_frames := 300

/-- `DetectionFsm::check_and_transition` from fsm.rs. -/
def check_and_transition (f : DetectionFsm) : DetectionFsm :=
  if f.signal1_confirmed && f.signal2_confirmed then
    { f with state := .Locked }
  else
    f

/-- `DetectionFsm::process_event` from fsm.rs (the Rust method mutates `self`
and returns the new state; here the whole updated struct is returned, whose
`.state` field is the Rust return value). -/
noncomputable def process_event (f : DetectionFsm) (e : DetectionEvent) : DetectionFsm :=
  match f.state, e with
  | .Listening, .VoiceDetected =>
      { f with state := .Detecting, signal1_confirmed := false, signal2_confirmed := false }
  | .Detecting, .KeywordMatched kw =>
      check_and_transition { f with signal1_confirmed := true, last_keyword := some kw }
  | .Detecting, .EmotionDetected emotion conf =>
      if conf > 0.6 then
        check_and_transition { f with signal2_confirmed := true, last_emotion := some emotion }
      else
        f
  | .Detecting, .VoiceEnded =>
      if !f.signal1_confirmed && !f.signal2_confirmed then
        { f with state := .Listening }
      else
        f
  | .Detecting, .Timeout => { f with state := .Listening }
  | .Locked, .CooldownComplete =>
      { f with state := .Listening, signal1_confirmed := false, signal2_confirmed := false,
               last_keyword := none, last_emotion := none }
  | _, .Reset =>
      { f with state := .Listening, signal1_confirmed := false, signal2_confirmed := false,
               last_keyword := none, last_emotion := none }
  | _, _ => f

/-- `DetectionFsm::is_dual_signal_confirmed` from fsm.rs. -/
def is_dual_signal_confirmed (f : DetectionFsm) : Bool :=
  f.signal1_confirmed && f.signal2_confirmed

/-- Run a list of events, returning the machine after all of them. -/
noncomputable def run (f : DetectionFsm) (es : List DetectionEvent) : DetectionFsm :=
  es.foldl process_event f

/-- The list of states visited when processing a list of events
(initial state first, then the state after each event). -/
noncomputable def runStates (f : DetectionFsm) : List DetectionEvent → List DetectionState
  | [] => [f.state]
  | e :: es => f.state :: runStates (f.process_event e) es

end DetectionFsm

/-! ### FSM theorems (C1, C2) -/

/-- Helper: the structural half of C1 — `process_event` can move a machine
into `Locked` only from `Detecting`, with both signal flags set afterwards,
and only on a `KeywordMatched` event (emotion signal already confirmed) or an
`EmotionDetected` event with confidence > 0.6 (keyword signal already
confirmed). -/
theorem process_event_locked_entry (f : DetectionFsm) (e : DetectionEvent)
    (hne : f.state ≠ .Locked) (hl : (f.process_event e).state = .Locked) :
    f.state = .Detecting ∧
    (f.process_event e).signal1_confirmed = true ∧
    (f.process_event e).signal2_confirmed = true ∧
    ((∃ kw, e = .KeywordMatched kw ∧ f.signal2_confirmed = true) ∨
     (∃ em c, e = .EmotionDetected em c ∧ c > 0.6 ∧ f.signal1_confirmed = true)) := by
  obtain ⟨s, m, s1, s2, lk, le, cf, mcf⟩ := f
  cases s <;> cases e <;>
    simp_all [DetectionFsm.process_event, DetectionFsm.check_and_transition] <;>
    split_ifs at hl ⊢ <;> simp_all <;>
    exact ⟨_, _, ⟨rfl, rfl⟩, by assumption⟩

/-- C1: the FSM enters `Locked` only from `Detecting`, and only when the
keyword signal and an emotion signal with confidence > 0.6 have both been
confirmed in that `Detecting` episode; and on the concrete event sequence
[VoiceDetected, KeywordMatched "battle", EmotionDetected "angry" 0.8] from
the initial state the visited states are
[Listening, Detecting, Detecting, Locked] with `is_dual_signal_confirmed`
returning true at the end. -/
theorem C1_locked_entry_and_trace :
    (∀ (f : DetectionFsm) (e : DetectionEvent),
      f.state ≠ .Locked → (f.process_event e).state = .Locked →
      f.state = .Detecting ∧
      (f.process_event e).signal1_confirmed = true ∧
      (f.process_event e).signal2_confirmed = true ∧
      ((∃ kw, e = .KeywordMatched kw ∧ f.signal2_confirmed = true) ∨
       (∃ em c, e = .EmotionDetected em c ∧ c > 0.6 ∧ f.signal1_confirmed = true))) ∧
    DetectionFsm.runStates .new
        [.VoiceDetected, .KeywordMatched "battle", .EmotionDetected "angry" 0.8]
      = [.Listening, .Detecting, .Detecting, .Locked] ∧
    (DetectionFsm.run .new
        [.VoiceDetected, .KeywordMatched "battle", .EmotionDetected "angry" 0.8]).is_dual_signal_confirmed
      = true := by
  refine ⟨fun f e hne hl => process_event_locked_entry f e hne hl, ?_, ?_⟩ <;>
    norm_num [DetectionFsm.run, DetectionFsm.runStates, DetectionFsm.process_event,
      DetectionFsm.new, DetectionFsm.check_and_transition,
      DetectionFsm.is_dual_signal_confirmed]

/-- Witness for C1: the universally quantified part applied at the concrete
machine reached after [VoiceDetected, KeywordMatched "battle"], processing
EmotionDetected "angry" 0.8. -/
theorem C1_locked_entry_and_trace_witness :
    (DetectionFsm.run .new [.VoiceDetected, .KeywordMatched "battle"]).state
        = .Detecting ∧
    ((DetectionFsm.run .new [.VoiceDetected, .KeywordMatched "battle"]).process_event
        (.EmotionDetected "angry" 0.8)).signal1_confirmed = true ∧
    ((DetectionFsm.run .new [.VoiceDetected, .KeywordMatched "battle"]).process_event
        (.EmotionDetected "angry" 0.8)).signal2_confirmed = true := by
  have h := C1_locked_entry_and_trace.1
    (DetectionFsm.run .new [.VoiceDetected, .KeywordMatched "battle"])
    (.EmotionDetected "angry" 0.8)
    (by norm_num [DetectionFsm.run, DetectionFsm.process_event, DetectionFsm.new,
      DetectionFsm.check_and_transition]; decide)
    (by norm_num [DetectionFsm.run, DetectionFsm.process_event, DetectionFsm.new,
      DetectionFsm.check_and_transition])
  exact ⟨h.1, h.2.1, h.2.2.1⟩

/-- C2: from `Locked`, `CooldownComplete` and `Reset` move the machine to
`Listening` and clear both signal flags, and every other event leaves the
machine in `Locked`. -/
theorem C2_locked_stability (f : DetectionFsm) (e : DetectionEvent)
    (h : f.state = .Locked) :
    ((e = .CooldownComplete ∨ e = .Reset) →
      (f.process_event e).state = .Listening ∧
      (f.process_event e).signal1_confirmed = false ∧
      (f.process_event e).signal2_confirmed = false) ∧
    (e ≠ .CooldownComplete → e ≠ .Reset → (f.process_event e).state = .Locked) := by
  obtain ⟨s, m, s1, s2, lk, le, cf, mcf⟩ := f
  cases s <;> simp_all <;> cases e <;>
    simp_all [DetectionFsm.process_event]

/-- Witness for C2: a concrete locked machine processing `VoiceDetected`
stays `Locked`. -/
theorem C2_locked_stability_witness :
    (DetectionFsm.process_event
      ⟨.Locked, .Autonomous, true, true, some "battle", some "angry", 0, 300⟩
      .VoiceDetected).state = .Locked := by
  exact (C2_locked_stability
      ⟨.Locked, .Autonomous, true, true, some "battle", some "angry", 0, 300⟩
      .VoiceDetected rfl).2 (by simp) (by simp)

/-! ## detection/vad.rs -/

/-- `VAD_THRESHOLD` from state.rs (`constants` module). -/
def VAD_THRESHOLD : ℝ := 0.5

/-- `VadResult` from vad.rs. -/
structure VadResult where
  is_speech : Bool
  confidence : ℝ
  start_ms : Option ℕ
  end_ms : Option ℕ

/-- The `VoiceActivityDetector` struct from vad.rs. -/
structure VoiceActivityDetector where
  threshold : ℝ
  min_speech_duration_ms : ℕ
  min_silence_duration_ms : ℕ
  frame_size_ms : ℕ
  is_speaking : Bool
  speech_start_ms : Option ℕ
  sample_rate : ℕ

namespace VoiceActivityDetector

/-- `VoiceActivityDetector::new` from vad.rs. -/
noncomputable def new : VoiceActivityDetector where
  threshold := VAD_THRESHOLD
  min_speech_duration_ms := 100
  min_silence_duration_ms := 300
  frame_size_ms := 30
  is_speaking := false
  speech_start_ms := none
  sample_rate := 16000

/-- `VoiceActivityDetector::compute_energy` from vad.rs: RMS of the frame,
0 for an empty frame. -/
noncomputable def compute_energy (samples : List ℝ) : ℝ :=
  if samples = [] then 0
  else Real.sqrt ((samples.map fun s => s * s).sum / samples.length)

open scoped Classical in
/-- `VoiceActivityDetector::process_frame` from vad.rs.  The Rust method
mutates `self` and returns a `VadResult`; here the updated detector is
returned alongside the result. -/
noncomputable def process_frame (v : VoiceActivityDetector) (samples : List ℝ)
    (timestamp_ms : ℕ) : VoiceActivityDetector × VadResult :=
  let energy := compute_energy samples
  let is_speech : Bool := decide (energy > v.threshold)
  if is_speech && !v.is_speaking then
    ({ v with is_speaking := true, speech_start_ms := some timestamp_ms },
     { is_speech := true, confidence := min energy 1,
       start_ms := some timestamp_ms, end_ms := none })
  else if !is_speech && v.is_speaking then
    ({ v with is_speaking := false, speech_start_ms := none },
     { is_speech := false, confidence := 1 - min energy 1,
       start_ms := v.speech_start_ms, end_ms := some timestamp_ms })
  else
    (v, { is_speech := is_speech, confidence := min energy 1,
          start_ms := none, end_ms := none })

end VoiceActivityDetector

/-- Helper: the RMS energy of an all-zero (or empty) frame is 0. -/
theorem compute_energy_zero (n : ℕ) :
    VoiceActivityDetector.compute_energy (List.replicate n (0 : ℝ)) = 0 := by
  unfold VoiceActivityDetector.compute_energy
  rcases Nat.eq_zero_or_pos n with h | h
  · subst h; simp
  · have hne : List.replicate n (0 : ℝ) ≠ [] := by
      simp [List.replicate_eq_nil_iff]; omega
    rw [if_neg hne]
    have : ((List.replicate n (0 : ℝ)).map fun s => s * s).sum = 0 := by
      simp [List.map_replicate]
    rw [this]
    simp [Real.sqrt_eq_zero']

/-- A detector currently inside a speech segment (hysteresis flag set),
with the default threshold from `VoiceActivityDetector::new`. -/
noncomputable def vadSpeaking : VoiceActivityDetector :=
  ⟨VAD_THRESHOLD, 100, 300, 30, true, some 0, 16000⟩

/-- A detector outside any speech segment, with the default threshold. -/
noncomputable def vadIdle : VoiceActivityDetector :=
  ⟨VAD_THRESHOLD, 100, 300, 30, false, none, 16000⟩

/-- Helper: a zero frame processed while inside a speech segment concludes
the segment with confidence 1. -/
theorem process_frame_zero_speaking (v : VoiceActivityDetector) (n t : ℕ)
    (h : 0 ≤ v.threshold) (hsp : v.is_speaking = true) :
    v.process_frame (List.replicate n 0) t =
      ({ v with is_speaking := false, speech_start_ms := none },
       { is_speech := false, confidence := 1,
         start_ms := v.speech_start_ms, end_ms := some t }) := by
  have he := compute_energy_zero n
  have hs : ¬ ((0 : ℝ) > v.threshold) := not_lt.mpr h
  simp [VoiceActivityDetector.process_frame, he, hs, hsp]

/-- Helper: a zero frame processed while idle is reported as non-speech with
confidence 0. -/
theorem process_frame_zero_idle (v : VoiceActivityDetector) (n t : ℕ)
    (h : 0 ≤ v.threshold) (hsp : v.is_speaking = false) :
    v.process_frame (List.replicate n 0) t =
      (v, { is_speech := false, confidence := 0,
            start_ms := none, end_ms := none }) := by
  have he := compute_energy_zero n
  have hs : ¬ ((0 : ℝ) > v.threshold) := not_lt.mpr h
  simp [VoiceActivityDetector.process_frame, he, hs, hsp]

/-- C3 (amended): an all-zero (or empty) frame never yields `is_speech =
true` and never an error; its confidence is 0 whenever the detector is not
currently inside a speech segment, but on the closing edge (`is_speaking`
currently true) the returned confidence is `1 - min energy 1 = 1`, not 0. -/
theorem C3_zero_frame_amended (v : VoiceActivityDetector) (n t : ℕ)
    (h : 0 ≤ v.threshold) :
    (v.process_frame (List.replicate n 0) t).2.is_speech = false ∧
    (v.is_speaking = false →
      (v.process_frame (List.replicate n 0) t).2.confidence = 0) ∧
    (v.is_speaking = true →
      (v.process_frame (List.replicate n 0) t).2.confidence = 1 ∧
      (v.process_frame (List.replicate n 0) t).2.end_ms = some t) := by
  cases hsp : v.is_speaking
  · rw [process_frame_zero_idle v n t h hsp]; simp
  · rw [process_frame_zero_speaking v n t h hsp]; simp

/-- Witness for the amended C3: processing an all-zero frame on a concrete
idle detector yields `is_speech = false` and confidence 0. -/
theorem C3_zero_frame_amended_witness :
    (vadIdle.process_frame (List.replicate 160 0) 30).2.is_speech = false ∧
    (vadIdle.process_frame (List.replicate 160 0) 30).2.confidence = 0 := by
  have h := C3_zero_frame_amended vadIdle 160 30
    (by norm_num [vadIdle, VAD_THRESHOLD])
  exact ⟨h.1, h.2.1 rfl⟩

/-- Counterexample to C3 as stated: on a detector whose hysteresis flag
`is_speaking` is true, an all-zero frame yields confidence 1, not 0. -/
theorem C3_zero_frame_counterexample :
    (vadSpeaking.process_frame (List.replicate 160 0) 100).2.is_speech = false ∧
    (vadSpeaking.process_frame (List.replicate 160 0) 100).2.confidence = 1 ∧
    (vadSpeaking.process_frame (List.replicate 160 0) 100).2.confidence ≠ 0 := by
  rw [process_frame_zero_speaking vadSpeaking 160 100
    (by norm_num [vadSpeaking, VAD_THRESHOLD]) rfl]
  norm_num

/-! ## detection/keyword.rs

Strings of keyword.rs are modelled as lists of characters (`Str`), so that
the case folding and substring tests of the Rust code remain executable;
`str::len` becomes character count (the sources only use ASCII data, where
byte length and character count agree).  The Rust `HashMap` is modelled as
an association list whose `insert` replaces the value of an existing key in
place and appends unknown keys; iterating the map visits entries in that
list order (for a `HashMap` the iteration order is arbitrary, so this is
one possible execution). -/

/-- Strings as character lists. -/
abbrev Str := List Char

/-- Rust `str::to_lowercase` on ASCII data. -/
def strToLower (s : Str) : Str := s.map Char.toLower

/-- Auxiliary for `split_whitespace`: the accumulator holds the current
token reversed. -/
def splitWsAux : Str → Str → List Str
  | [], acc => if acc = [] then [] else [acc.reverse]
  | c :: cs, acc =>
      if c.isWhitespace then
        if acc = [] then splitWsAux cs []
        else acc.reverse :: splitWsAux cs []
      else splitWsAux cs (c :: acc)

/-- Rust `str::split_whitespace`: maximal runs of non-whitespace
characters, with no empty tokens. -/
def splitWhitespace (s : Str) : List Str := splitWsAux s []

/-- Rust `str::contains`: `strContainsSub hay pat` is true iff `pat` occurs
as a contiguous substring of `hay`. -/
def strContainsSub (hay pat : Str) : Bool :=
  hay.tails.any fun t => pat.isPrefixOf t

/-- The `Keyword` struct from keyword.rs (`u8` priority widened to ℕ). -/
structure Keyword where
  word : Str
  category : Str
  variations : List Str
  mood : Option Str
  priority : ℕ
deriving DecidableEq, Repr

namespace Keyword

/-- `Keyword::new` from keyword.rs. -/
def new (word category : Str) : Keyword :=
  ⟨word, category, [word], none, 0⟩

/-- `Keyword::with_variation` from keyword.rs. -/
def with_variation (k : Keyword) (v : Str) : Keyword :=
  { k with variations := k.variations ++ [v] }

/-- `Keyword::with_mood` from keyword.rs. -/
def with_mood (k : Keyword) (m : Str) : Keyword :=
  { k with mood := some m }

end Keyword

/-- The variation-to-keyword map (`HashMap<String, Keyword>`). -/
abbrev KeywordMap := List (Str × Keyword)

/-- `HashMap::insert`: replace the value at an existing key in place, or
append a new binding. -/
def mapInsert : KeywordMap → Str → Keyword → KeywordMap
  | [], k, v => [(k, v)]
  | (k', v') :: rest, k, v =>
      if k' = k then (k, v) :: rest else (k', v') :: mapInsert rest k v

/-- `HashMap::get`. -/
def mapLookup : KeywordMap → Str → Option Keyword
  | [], _ => none
  | (k, v) :: rest, s => if s = k then some v else mapLookup rest s

/-- `categories.entry(cat).or_default().push(word)` from
`KeywordVocabulary::add_keyword`. -/
def catPush : List (Str × List Str) → Str → Str → List (Str × List Str)
  | [], cat, w => [(cat, [w])]
  | (c, ws) :: rest, cat, w =>
      if c = cat then (c, ws ++ [w]) :: rest
      else (c, ws) :: catPush rest cat w

/-- The `KeywordVocabulary` struct from keyword.rs. -/
structure KeywordVocabulary where
  keywords : KeywordMap
  categories : List (Str × List Str)
  version : ℕ
deriving DecidableEq, Repr

/-- `KeywordMatch` from keyword.rs; the `f32` confidence becomes ℚ. -/
structure KeywordMatch where
  keyword : Str
  category : Str
  confidence : ℚ
  start_index : ℕ
  end_index : ℕ
deriving DecidableEq, Repr

namespace KeywordVocabulary

/-- `KeywordVocabulary::new` from keyword.rs. -/
def new : KeywordVocabulary := ⟨[], [], 0⟩

/-- `KeywordVocabulary::add_keyword` from keyword.rs: insert one clone of
the keyword per lowercased variation, record the canonical word under its
category, bump the version. -/
def add_keyword (v : KeywordVocabulary) (k : Keyword) : KeywordVocabulary where
  keywords := k.variations.foldl (fun m vr => mapInsert m (strToLower vr) k) v.keywords
  categories := catPush v.categories k.category k.word
  version := v.version + 1

/-- The priority used by the sort in `KeywordVocabulary::search`: the match
keyword's canonical word is looked up (lowercased) in the variation map,
defaulting to 0 when absent. -/
def searchPriority (v : KeywordVocabulary) (m : KeywordMatch) : ℕ :=
  ((mapLookup v.keywords (strToLower m.keyword)).map Keyword.priority).getD 0

/-- The sort order of `KeywordVocabulary::search` (priority descending,
then confidence descending; `a` may stay before `b` iff the Rust comparator
does not order `a` strictly after `b`). -/
def searchLe (v : KeywordVocabulary) (a b : KeywordMatch) : Bool :=
  decide (v.searchPriority b < v.searchPriority a ∨
    (v.searchPriority b = v.searchPriority a ∧ b.confidence ≤ a.confidence))

/-- `KeywordVocabulary::search` from keyword.rs: lowercase the text, split
it on whitespace, take an exact map hit with confidence 1.0 per token, or
else fuzzy substring matches against every map entry with confidence
`key.len / max(word.len, key.len)` retained when > 0.5; finally sort by
(priority desc, confidence desc) with a stable sort. -/
def search (v : KeywordVocabulary) (text : Str) : List KeywordMatch :=
  let words := splitWhitespace (strToLower text)
  let ms := words.enum.flatMap fun p =>
    match mapLookup v.keywords p.2 with
    | some keyword => [⟨keyword.word, keyword.category, 1, p.1, p.1⟩]
    | none =>
        v.keywords.flatMap fun q =>
          if strContainsSub q.1 p.2 || strContainsSub p.2 q.1 then
            if ((q.1.length : ℚ) / (max p.2.length q.1.length : ℕ)) > 0.5 then
              [⟨q.2.word, q.2.category,
                (q.1.length : ℚ) / (max p.2.length q.1.length : ℕ), p.1, p.1⟩]
            else []
          else []
  ms.mergeSort (searchLe v)

/-- `KeywordVocabulary::to_json` from keyword.rs serialises the list of map
values (one clone per variation entry); the serde JSON round trip on a
`Vec<Keyword>` is modelled as the identity on the keyword list. -/
def to_json (v : KeywordVocabulary) : List Keyword :=
  v.keywords.map (·.2)

/-- `KeywordVocabulary::from_json` from keyword.rs: fold `add_keyword` over
the parsed keyword list, starting from the empty vocabulary. -/
def from_json (ks : List Keyword) : KeywordVocabulary :=
  ks.foldl add_keyword new

end KeywordVocabulary

/-! ### Keyword search theorems (C4) -/

/-- Helper: soundness of `search` — every produced match is an exact hit
with confidence 1, or a fuzzy hit whose confidence is
`variation-length / max(token-length, variation-length)`, retained only
above 1/2. -/
theorem search_mem_sound (v : KeywordVocabulary) (text : Str) (m : KeywordMatch)
    (hm : m ∈ v.search text) :
    m.confidence = 1 ∨
    (1/2 < m.confidence ∧
      ∃ q ∈ v.keywords, ∃ p ∈ (splitWhitespace (strToLower text)).enum,
        (strContainsSub q.1 p.2 || strContainsSub p.2 q.1) = true ∧
        m.confidence = (q.1.length : ℚ) / (max p.2.length q.1.length : ℕ)) := by
  unfold KeywordVocabulary.search at hm
  rw [List.Perm.mem_iff (List.mergeSort_perm _ _)] at hm
  simp only [List.mem_flatMap] at hm
  obtain ⟨p, hp, hm⟩ := hm
  cases hq : mapLookup v.keywords p.2 with
  | some k =>
      rw [hq] at hm
      simp only [List.mem_singleton] at hm
      subst hm
      exact Or.inl rfl
  | none =>
      rw [hq] at hm
      simp only [List.mem_flatMap] at hm
      obtain ⟨q, hqmem, hm⟩ := hm
      split at hm
      · split at hm
        · simp only [List.mem_singleton] at hm
          subst hm
          refine Or.inr ⟨by linarith [show (0.5 : ℚ) < _ by assumption], q, hqmem, p, hp, by assumption, rfl⟩
        · simp at hm
      · simp at hm

/-- Helper: exact completeness of `search` — an exact vocabulary hit on a
token yields a match with confidence 1 at that token position. -/
theorem search_exact_complete (v : KeywordVocabulary) (text : Str)
    (p : ℕ × Str) (hp : p ∈ (splitWhitespace (strToLower text)).enum)
    (k : Keyword) (hk : mapLookup v.keywords p.2 = some k) :
    (⟨k.word, k.category, 1, p.1, p.1⟩ : KeywordMatch) ∈ v.search text := by
  unfold KeywordVocabulary.search
  rw [List.Perm.mem_iff (List.mergeSort_perm _ _)]
  simp only [List.mem_flatMap]
  exact ⟨p, hp, by rw [hk]; simp⟩

/-- Helper: fuzzy completeness of `search` — for a token with no exact hit,
every map entry in substring relation with the token whose ratio
`variation-length / max(token-length, variation-length)` exceeds 1/2
produces a match with exactly that confidence at that token position. -/
theorem search_fuzzy_complete (v : KeywordVocabulary) (text : Str)
    (p : ℕ × Str) (hp : p ∈ (splitWhitespace (strToLower text)).enum)
    (hnone : mapLookup v.keywords p.2 = none)
    (q : Str × Keyword) (hq : q ∈ v.keywords)
    (hsub : (strContainsSub q.1 p.2 || strContainsSub p.2 q.1) = true)
    (hconf : ((q.1.length : ℚ) / (max p.2.length q.1.length : ℕ)) > 0.5) :
    (⟨q.2.word, q.2.category, (q.1.length : ℚ) / (max p.2.length q.1.length : ℕ),
       p.1, p.1⟩ : KeywordMatch) ∈ v.search text := by
  unfold KeywordVocabulary.search
  rw [List.Perm.mem_iff (List.mergeSort_perm _ _)]
  simp only [List.mem_flatMap]
  refine ⟨p, hp, ?_⟩
  rw [hnone]
  simp only [List.mem_flatMap]
  exact ⟨q, hq, by rw [if_pos hsub, if_pos hconf]; simp⟩

/-- C4 (amended): exact lowercased-token hits yield confidence exactly 1;
a token with no exact hit yields, for every vocabulary variation in
substring relation with it, a match whose confidence is
`variation-length / max(token-length, variation-length)` — which is 1.0
when the variation is at least as long as the token, and
shorter-length/longer-length only when the token strictly contains the
variation — retained exactly when that ratio exceeds 0.5; and every match
produced is of one of these two forms. -/
theorem C4_search_confidence_amended (v : KeywordVocabulary) (text : Str) :
    (∀ p ∈ (splitWhitespace (strToLower text)).enum, ∀ k,
      mapLookup v.keywords p.2 = some k →
      (⟨k.word, k.category, 1, p.1, p.1⟩ : KeywordMatch) ∈ v.search text) ∧
    (∀ p ∈ (splitWhitespace (strToLower text)).enum,
      mapLookup v.keywords p.2 = none →
      ∀ q ∈ v.keywords,
      (strContainsSub q.1 p.2 || strContainsSub p.2 q.1) = true →
      ((q.1.length : ℚ) / (max p.2.length q.1.length : ℕ)) > 0.5 →
      (⟨q.2.word, q.2.category, (q.1.length : ℚ) / (max p.2.length q.1.length : ℕ),
         p.1, p.1⟩ : KeywordMatch) ∈ v.search text) ∧
    (∀ m ∈ v.search text,
      m.confidence = 1 ∨
      (1/2 < m.confidence ∧
        ∃ q ∈ v.keywords, ∃ p ∈ (splitWhitespace (strToLower text)).enum,
          (strContainsSub q.1 p.2 || strContainsSub p.2 q.1) = true ∧
          m.confidence = (q.1.length : ℚ) / (max p.2.length q.1.length : ℕ))) :=
  ⟨fun p hp k hk => search_exact_complete v text p hp k hk,
   fun p hp hnone q hq hsub hconf =>
     search_fuzzy_complete v text p hp hnone q hq hsub hconf,
   fun m hm => search_mem_sound v text m hm⟩

/-- A one-keyword vocabulary holding only "battle" (category "combat"). -/
def vocabBattle : KeywordVocabulary :=
  KeywordVocabulary.new.add_keyword (Keyword.new "battle".data "combat".data)

/-- Witness for the amended C4: in the concrete one-keyword vocabulary, the
exact token "battle" yields a confidence-1 match at position 0. -/
theorem C4_search_confidence_amended_witness :
    (⟨"battle".data, "combat".data, 1, 0, 0⟩ : KeywordMatch)
      ∈ vocabBattle.search "Battle".data := by
  exact (C4_search_confidence_amended vocabBattle "Battle".data).1
    (0, "battle".data) (by decide)
    (Keyword.new "battle".data "combat".data) (by decide)

/-- Counterexample to C4 as stated: for the token "batt" against the
vocabulary variation "battle" (token a substring of the variation), the
code yields confidence `6 / max 4 6 = 1`, not shorter/longer = 4/6. -/
theorem C4_search_confidence_counterexample :
    vocabBattle.search "batt".data
      = [⟨"battle".data, "combat".data, 1, 0, 0⟩] ∧
    ((1 : ℚ) ≠ (4 : ℚ) / 6) := by
  constructor
  · have h2 : splitWhitespace (strToLower "batt".data) = ["batt".data] := by decide
    have h3 : vocabBattle.keywords
        = [("battle".data, Keyword.new "battle".data "combat".data)] := by decide
    have h4 : mapLookup vocabBattle.keywords "batt".data = none := by decide
    have h5 : (strContainsSub "battle".data "batt".data
        || strContainsSub "batt".data "battle".data) = true := by decide
    have hlen1 : ("battle".data.length : ℚ) = 6 := by decide
    have hlen2 : (max "batt".data.length "battle".data.length : ℕ) = 6 := by decide
    have h6 : (("battle".data.length : ℚ)
        / (max "batt".data.length "battle".data.length : ℕ)) = 1 := by
      rw [hlen1, hlen2]; norm_num
    have h7 : (("battle".data.length : ℚ)
        / (max "batt".data.length "battle".data.length : ℕ)) > 0.5 := by
      rw [h6]; norm_num
    unfold KeywordVocabulary.search
    rw [h2]
    simp only [List.enum]
    rw [h3] at h4 ⊢
    simp only [List.flatMap_cons, List.flatMap_nil, List.enumFrom]
    rw [h4]
    simp only [List.flatMap_cons, List.flatMap_nil]
    rw [if_pos h5, if_pos h7, h6]
    simp [List.mergeSort]
    decide
  · norm_num

/-! ### Vocabulary JSON round-trip (C9) -/

/-- The lowercased variations of a keyword — exactly the map keys that
`add_keyword` writes for it. -/
def lowvars (k : Keyword) : List Str := k.variations.map strToLower

/-- The accumulator semantics of replaying `add_keyword` over a keyword
list: the last keyword owning key `s` wins. -/
def lastOwnerFold (ks : List Keyword) (s : Str) (a : Option Keyword) : Option Keyword :=
  ks.foldl (fun acc K => if s ∈ lowvars K then some K else acc) a

/-- Helper: lookup after a single map insert. -/
theorem mapLookup_mapInsert (m : KeywordMap) (key : Str) (val : Keyword) (s : Str) :
    mapLookup (mapInsert m key val) s = if s = key then some val else mapLookup m s := by
  induction m with
  | nil => simp [mapInsert, mapLookup]
  | cons e rest ih =>
      obtain ⟨k', v'⟩ := e
      by_cases hk : k' = key
      · subst hk
        simp only [mapInsert, if_pos rfl, mapLookup]
        split_ifs <;> rfl
      · simp only [mapInsert, if_neg hk, mapLookup, ih]
        split_ifs with h1 h2 <;> simp_all

/-- Helper: entries after an insert come from the new pair or the old map. -/
theorem mem_mapInsert (m : KeywordMap) (key : Str) (val : Keyword) (e : Str × Keyword) :
    e ∈ mapInsert m key val → e = (key, val) ∨ e ∈ m := by
  induction m with
  | nil => intro he; simpa [mapInsert] using he
  | cons f rest ih =>
      obtain ⟨k', v'⟩ := f
      intro he
      simp only [mapInsert] at he
      split at he
      · rcases List.mem_cons.mp he with h | h
        · exact Or.inl h
        · exact Or.inr (List.mem_cons_of_mem _ h)
      · rcases List.mem_cons.mp he with h | h
        · exact Or.inr (by simp [h])
        · rcases ih h with h' | h'
          · exact Or.inl h'
          · exact Or.inr (List.mem_cons_of_mem _ h')

/-- Helper: the key list after an insert — unchanged when the key is
present, extended by the key otherwise. -/
theorem keys_mapInsert (m : KeywordMap) (key : Str) (val : Keyword) :
    (mapInsert m key val).map (·.1) =
      if key ∈ m.map (·.1) then m.map (·.1) else m.map (·.1) ++ [key] := by
  induction m with
  | nil => simp [mapInsert]
  | cons f rest ih =>
      obtain ⟨k', v'⟩ := f
      by_cases hk : k' = key
      · simp only [mapInsert, if_pos hk, hk]
        rw [if_pos (show key ∈ ((key, v') :: rest).map (·.1) by
          rw [List.map_cons]; exact List.mem_cons_self _ _)]
        simp
      · simp only [mapInsert, if_neg hk, List.map_cons, ih]
        by_cases hmem : key ∈ rest.map (·.1)
        · rw [if_pos hmem, if_pos (List.mem_cons_of_mem _ hmem)]
        · rw [if_neg hmem, if_neg ?hnotmem]
          case hnotmem =>
            simp only [List.mem_cons]
            rintro (h | h)
            · exact hk h.symm
            · exact hmem h
          simp

/-- Helper: inserting preserves distinctness of the keys. -/
theorem nodupKeys_mapInsert (m : KeywordMap) (key : Str) (val : Keyword)
    (h : (m.map (·.1)).Nodup) : ((mapInsert m key val).map (·.1)).Nodup := by
  rw [keys_mapInsert]
  by_cases hmem : key ∈ m.map (·.1)
  · rwa [if_pos hmem]
  · rw [if_neg hmem, ← List.concat_eq_append]
    exact h.concat hmem

/-- Helper: lookup after inserting one keyword under a run of lowercased
variation keys (the inner fold of `add_keyword`). -/
theorem mapLookup_foldl_insert (vars : List Str) (k : Keyword) (m : KeywordMap) (s : Str) :
    mapLookup (vars.foldl (fun m vr => mapInsert m (strToLower vr) k) m) s =
      if s ∈ vars.map strToLower then some k else mapLookup m s := by
  induction vars generalizing m with
  | nil => simp
  | cons v vars ih =>
      simp only [List.foldl_cons, List.map_cons, List.mem_cons]
      rw [ih, mapLookup_mapInsert]
      by_cases h1 : s ∈ vars.map strToLower
      · rw [if_pos h1, if_pos (Or.inr h1)]
      · by_cases h2 : s = strToLower v
        · rw [if_neg h1, if_pos h2, if_pos (Or.inl h2)]
        · rw [if_neg h1, if_neg h2, if_neg (by tauto)]

/-- Helper: entries after the insert run of `add_keyword` come from the old
map or bind a lowercased variation of the inserted keyword to it. -/
theorem mem_foldl_insert (vars : List Str) (k : Keyword) (m : KeywordMap)
    (e : Str × Keyword) :
    e ∈ vars.foldl (fun m vr => mapInsert m (strToLower vr) k) m →
      e ∈ m ∨ (e.2 = k ∧ e.1 ∈ vars.map strToLower) := by
  induction vars generalizing m with
  | nil => intro h; exact Or.inl h
  | cons v vars ih =>
      intro h
      rcases ih _ h with h' | h'
      · rcases mem_mapInsert _ _ _ _ h' with h'' | h''
        · subst h''
          exact Or.inr ⟨rfl, by simp⟩
        · exact Or.inl h''
      · exact Or.inr ⟨h'.1, by simp [h'.2]⟩

/-- Helper: the insert run preserves distinctness of keys. -/
theorem nodupKeys_foldl_insert (vars : List Str) (k : Keyword) (m : KeywordMap)
    (h : (m.map (·.1)).Nodup) :
    (((vars.foldl (fun m vr => mapInsert m (strToLower vr) k) m)).map (·.1)).Nodup := by
  induction vars generalizing m with
  | nil => exact h
  | cons v vars ih => exact ih _ (nodupKeys_mapInsert _ _ _ h)

/-- Helper: looking up a key after replaying a keyword list with
`add_keyword` returns the last keyword owning that key (or falls back to
the initial vocabulary). -/
theorem mapLookup_foldl_add (ks : List Keyword) (v : KeywordVocabulary) (s : Str) :
    mapLookup (ks.foldl KeywordVocabulary.add_keyword v).keywords s =
      lastOwnerFold ks s (mapLookup v.keywords s) := by
  induction ks generalizing v with
  | nil => rfl
  | cons K ks ih =>
      show mapLookup (ks.foldl KeywordVocabulary.add_keyword
          (KeywordVocabulary.add_keyword v K)).keywords s = _
      rw [ih]
      show _ = lastOwnerFold ks s (if s ∈ lowvars K then some K else mapLookup v.keywords s)
      congr 1
      exact mapLookup_foldl_insert K.variations K v.keywords s

/-- Helper: every map entry of a replayed vocabulary either predates the
replay or binds a lowercased variation of one of the replayed keywords to
that keyword. -/
theorem mem_entries_foldl_add (ks : List Keyword) (v : KeywordVocabulary)
    (e : Str × Keyword) :
    e ∈ (ks.foldl KeywordVocabulary.add_keyword v).keywords →
      e ∈ v.keywords ∨ (e.2 ∈ ks ∧ e.1 ∈ lowvars e.2) := by
  induction ks generalizing v with
  | nil => exact Or.inl
  | cons K ks ih =>
      intro h
      rcases ih _ h with h' | h'
      · rcases mem_foldl_insert _ _ _ _ h' with h'' | h''
        · exact Or.inl h''
        · exact Or.inr ⟨by rw [h''.1]; exact List.mem_cons_self _ _,
            by rw [lowvars, h''.1]; exact h''.2⟩
      · exact Or.inr ⟨List.mem_cons_of_mem _ h'.1, h'.2⟩

/-- Helper: replays preserve distinctness of keys. -/
theorem nodupKeys_foldl_add (ks : List Keyword) (v : KeywordVocabulary)
    (h : (v.keywords.map (·.1)).Nodup) :
    (((ks.foldl KeywordVocabulary.add_keyword v)).keywords.map (·.1)).Nodup := by
  induction ks generalizing v with
  | nil => exact h
  | cons K ks ih => exact ih _ (nodupKeys_foldl_insert _ _ _ h)

/-- Helper: when no keyword in the list owns the key, the fold keeps the
initial accumulator. -/
theorem lastOwnerFold_of_no_owner (ks : List Keyword) (s : Str) :
    (∀ K ∈ ks, s ∉ lowvars K) → ∀ a, lastOwnerFold ks s a = a := by
  induction ks with
  | nil => intro _ a; rfl
  | cons K ks ih =>
      intro h a
      show lastOwnerFold ks s (if s ∈ lowvars K then some K else a) = a
      rw [if_neg (h K (List.mem_cons_self _ _))]
      exact ih (fun K' hK' => h K' (List.mem_cons_of_mem _ hK')) a

/-- Helper: when some keyword owns the key and every owner equals `k`, the
fold returns `k` regardless of the accumulator. -/
theorem lastOwnerFold_of_owner (ks : List Keyword) (s : Str) (k : Keyword) :
    (∀ K ∈ ks, s ∈ lowvars K → K = k) → (∃ K ∈ ks, s ∈ lowvars K) →
    ∀ a, lastOwnerFold ks s a = some k := by
  induction ks with
  | nil => intro _ h2 a; simp at h2
  | cons K ks ih =>
      intro h1 h2 a
      show lastOwnerFold ks s (if s ∈ lowvars K then some K else a) = some k
      by_cases ho : s ∈ lowvars K
      · rw [if_pos ho]
        by_cases hb : ∃ K' ∈ ks, s ∈ lowvars K'
        · exact ih (fun K' hK' => h1 K' (List.mem_cons_of_mem _ hK')) hb _
        · push_neg at hb
          rw [lastOwnerFold_of_no_owner ks s hb]
          rw [h1 K (List.mem_cons_self _ _) ho]
      · rw [if_neg ho]
        have h2' : ∃ K' ∈ ks, s ∈ lowvars K' := by
          rcases h2 with ⟨K', hK', ho'⟩
          rcases List.mem_cons.mp hK' with h | h
          · exact absurd (h ▸ ho') ho
          · exact ⟨K', h, ho'⟩
        exact ih (fun K' hK' => h1 K' (List.mem_cons_of_mem _ hK')) h2' a

/-- Helper: a fold returning `none` means nobody owned the key and the
accumulator was `none`. -/
theorem lastOwnerFold_eq_none (ks : List Keyword) (s : Str) :
    ∀ a, lastOwnerFold ks s a = none → (∀ K ∈ ks, s ∉ lowvars K) ∧ a = none := by
  induction ks with
  | nil => intro a h; exact ⟨by simp, h⟩
  | cons K ks ih =>
      intro a h
      have h' := ih (if s ∈ lowvars K then some K else a) h
      by_cases ho : s ∈ lowvars K
      · rw [if_pos ho] at h'
        exact absurd h'.2 (by simp)
      · rw [if_neg ho] at h'
        refine ⟨?_, h'.2⟩
        intro K' hK'
        rcases List.mem_cons.mp hK' with h'' | h''
        · exact h'' ▸ ho
        · exact h'.1 K' h''

/-- Helper: a successful lookup exhibits a map entry. -/
theorem mapLookup_mem (m : KeywordMap) (s : Str) (k : Keyword) :
    mapLookup m s = some k → (s, k) ∈ m := by
  induction m with
  | nil => intro h; simp [mapLookup] at h
  | cons e rest ih =>
      obtain ⟨k', v'⟩ := e
      intro h
      simp only [mapLookup] at h
      split at h
      · obtain ⟨rfl⟩ := Option.some.inj h
        rename_i hs
        rw [hs]
        exact List.mem_cons_self _ _
      · exact List.mem_cons_of_mem _ (ih h)

/-- Helper: under distinct keys, a map entry determines the lookup. -/
theorem mem_mapLookup_of_nodup (m : KeywordMap) (s : Str) (k : Keyword)
    (hnd : (m.map (·.1)).Nodup) :
    (s, k) ∈ m → mapLookup m s = some k := by
  induction m with
  | nil => intro h; simp at h
  | cons e rest ih =>
      obtain ⟨k', v'⟩ := e
      intro h
      rcases List.mem_cons.mp h with h' | h'
      · obtain ⟨h1, h2⟩ := Prod.mk.injEq .. ▸ h'
        simp [mapLookup, h1, h2]
      · have hnd' := hnd
        rw [List.map_cons, List.nodup_cons] at hnd'
        have hs : s ≠ k' := by
          intro hss
          exact hnd'.1 (hss ▸ List.mem_map.mpr ⟨(s, k), h', rfl⟩)
        simp only [mapLookup, if_neg hs]
        exact ih hnd'.2 h'

/-- Helper: under distinct keys, the map values are exactly the successful
lookups. -/
theorem mem_values_iff_lookup (m : KeywordMap) (k : Keyword)
    (hnd : (m.map (·.1)).Nodup) :
    k ∈ m.map (·.2) ↔ ∃ s, mapLookup m s = some k := by
  constructor
  · intro h
    rcases List.mem_map.mp h with ⟨e, he, hek⟩
    refine ⟨e.1, mem_mapLookup_of_nodup m e.1 k hnd ?_⟩
    have : e = (e.1, k) := by
      rw [← hek]
    rw [← this]
    exact he
  · rintro ⟨s, hs⟩
    exact List.mem_map.mpr ⟨(s, k), mapLookup_mem _ _ _ hs, rfl⟩

/-- C9 (amended): when no two distinct keywords of the loaded list share a
lowercased variation, serializing the vocabulary with `to_json` and
reloading with `from_json` reproduces the same variation-to-keyword table:
lookups agree on every key, and the stored
(word, category, variations, mood, priority) tuples coincide.  (With shared
variations a partially shadowed keyword can be lost, see the
counterexample.) -/
theorem C9_roundtrip_amended (ks : List Keyword)
    (hdisj : List.Pairwise (fun K K' => ∀ s ∈ lowvars K, s ∉ lowvars K') ks) :
    (∀ s, mapLookup (KeywordVocabulary.from_json
        ((KeywordVocabulary.from_json ks).to_json)).keywords s
      = mapLookup (KeywordVocabulary.from_json ks).keywords s) ∧
    (∀ k, k ∈ (KeywordVocabulary.from_json
        ((KeywordVocabulary.from_json ks).to_json)).to_json
      ↔ k ∈ (KeywordVocabulary.from_json ks).to_json) := by
  have hsym : Symmetric (fun K K' : Keyword => ∀ s ∈ lowvars K, s ∉ lowvars K') :=
    fun a b h s hsb hsa => h s hsa hsb
  have hR : ∀ K ∈ ks, ∀ K' ∈ ks, K ≠ K' → ∀ s ∈ lowvars K, s ∉ lowvars K' := by
    intro K hK K' hK' hne
    exact hdisj.forall hsym hK hK' hne
  have hnil : mapLookup KeywordVocabulary.new.keywords = fun _ => none := rfl
  have hlv : ∀ s, mapLookup (KeywordVocabulary.from_json ks).keywords s
      = lastOwnerFold ks s none := fun s => mapLookup_foldl_add ks _ s
  have hent : ∀ e ∈ (KeywordVocabulary.from_json ks).keywords,
      e.2 ∈ ks ∧ e.1 ∈ lowvars e.2 := by
    intro e he
    rcases mem_entries_foldl_add ks _ e he with h | h
    · exact absurd h (List.not_mem_nil e)
    · exact h
  have hvals : ∀ k ∈ (KeywordVocabulary.from_json ks).to_json, k ∈ ks := by
    intro k hk
    rcases List.mem_map.mp hk with ⟨e, he, hek⟩
    exact hek ▸ (hent e he).1
  have hptw : ∀ s, mapLookup (KeywordVocabulary.from_json
      ((KeywordVocabulary.from_json ks).to_json)).keywords s
      = mapLookup (KeywordVocabulary.from_json ks).keywords s := by
    intro s
    have hlvrt : mapLookup (KeywordVocabulary.from_json
        ((KeywordVocabulary.from_json ks).to_json)).keywords s
        = lastOwnerFold ((KeywordVocabulary.from_json ks).to_json) s none :=
      mapLookup_foldl_add _ _ s
    rw [hlvrt]
    cases hv : mapLookup (KeywordVocabulary.from_json ks).keywords s with
    | none =>
        have hno := (lastOwnerFold_eq_none ks s none ((hlv s).symm.trans hv)).1
        refine lastOwnerFold_of_no_owner _ s ?_ none
        intro K hKv
        exact hno K (hvals K hKv)
    | some k =>
        have hske : (s, k) ∈ (KeywordVocabulary.from_json ks).keywords :=
          mapLookup_mem _ s k hv
        have hk1 : k ∈ ks := (hent _ hske).1
        have hk2 : s ∈ lowvars k := (hent _ hske).2
        refine lastOwnerFold_of_owner _ s k ?_ ?_ none
        · intro K hKv hKs
          by_contra hne
          exact hR K (hvals K hKv) k hk1 hne s hKs hk2
        · exact ⟨k, List.mem_map.mpr ⟨(s, k), hske, rfl⟩, hk2⟩
  refine ⟨hptw, ?_⟩
  have hnd : (((KeywordVocabulary.from_json ks).keywords).map (·.1)).Nodup :=
    nodupKeys_foldl_add ks _ (by simp [KeywordVocabulary.new])
  have hndrt : (((KeywordVocabulary.from_json
      ((KeywordVocabulary.from_json ks).to_json)).keywords).map (·.1)).Nodup :=
    nodupKeys_foldl_add _ _ (by simp [KeywordVocabulary.new])
  intro k
  exact Iff.trans (mem_values_iff_lookup _ k hndrt)
    (Iff.trans (exists_congr fun s => by rw [hptw s])
      (mem_values_iff_lookup _ k hnd).symm)

/-- A keyword "x" (category c1) with an extra variation "y". -/
def kwA : Keyword := ⟨"x".data, "c1".data, ["x".data, "y".data], none, 0⟩

/-- A keyword "x" (category c2) whose only variation "x" shadows one of
`kwA`'s variations. -/
def kwB : Keyword := ⟨"x".data, "c2".data, ["x".data], none, 0⟩

/-- Counterexample to C9 as stated: in the vocabulary [kwA, kwB] the entry
for key "x" holds kwB and the entry for "y" holds kwA, so the serialised
value list is [kwB, kwA]; reloading it re-adds kwA after kwB, whose
re-inserted variation "x" overwrites kwB's only entry — kwB is stored in
the original vocabulary but absent from the reloaded one. -/
theorem C9_roundtrip_counterexample :
    kwB ∈ (KeywordVocabulary.from_json [kwA, kwB]).to_json ∧
    kwB ∉ (KeywordVocabulary.from_json
      ((KeywordVocabulary.from_json [kwA, kwB]).to_json)).to_json := by
  decide

/-- A keyword "a" with variation list ["a"]. -/
def kwC : Keyword := ⟨"a".data, "c".data, ["a".data], none, 0⟩

/-- A keyword "b" with variation list ["b"], disjoint from `kwC`. -/
def kwD : Keyword := ⟨"b".data, "c".data, ["b".data], none, 0⟩

/-- Witness for the amended C9: on the two disjoint concrete keywords the
round trip preserves the lookup of "a" and the storage of `kwC`. -/
theorem C9_roundtrip_amended_witness :
    (mapLookup (KeywordVocabulary.from_json
        ((KeywordVocabulary.from_json [kwC, kwD]).to_json)).keywords "a".data
      = mapLookup (KeywordVocabulary.from_json [kwC, kwD]).keywords "a".data) ∧
    (kwC ∈ (KeywordVocabulary.from_json
        ((KeywordVocabulary.from_json [kwC, kwD]).to_json)).to_json
      ↔ kwC ∈ (KeywordVocabulary.from_json [kwC, kwD]).to_json) := by
  have h := C9_roundtrip_amended [kwC, kwD] (by decide)
  exact ⟨h.1 _, h.2 _⟩

/-! ## inference/emotion.rs -/

/-- `Emotion` from emotion.rs, in declaration order. -/
inductive Emotion
  | Neutral
  | Happy
  | Sad
  | Angry
  | Fearful
  | Surprised
  | Disgusted
deriving DecidableEq, Repr

/-- `Emotion::all` from emotion.rs. -/
def Emotion.all : List Emotion :=
  [.Neutral, .Happy, .Sad, .Angry, .Fearful, .Surprised, .Disgusted]

/-- `EmotionError` from emotion.rs (message strings dropped). -/
inductive EmotionError
  | NotInitialized
  | ModelLoadError
  | AnalysisError
  | InsufficientData
deriving DecidableEq, Repr

/-- `AudioFeatures` from emotion.rs. -/
structure AudioFeatures where
  rms : ℝ
  zcr : ℝ
  pitch_hz : ℝ
  energy_variance : ℝ
  duration : ℝ
  sample_rate : ℕ

/-- `EmotionResult` from emotion.rs; the `HashMap<Emotion, f32>` of scores
(populated with all seven emotions) is modelled as a total function. -/
structure EmotionResult where
  primary : Emotion
  confidence : ℝ
  scores : Emotion → ℝ

/-- The `EmotionAnalyzer` struct from emotion.rs. -/
structure EmotionAnalyzer where
  initialized : Bool
  sensitivity : ℝ

/-- Rust `f32::clamp`. -/
noncomputable def rclamp (x lo hi : ℝ) : ℝ := min (max x lo) hi

/-- Rust `f32::signum` (total inputs only: 1 for non-negative values,
including +0.0, and -1 for negative values). -/
noncomputable def rustSignum (x : ℝ) : ℝ := if x < 0 then -1 else 1

/-- `calculate_rms` from emotion.rs. -/
noncomputable def calculate_rms (samples : List ℝ) : ℝ :=
  if samples = [] then 0
  else Real.sqrt ((samples.map fun s => s * s).sum / samples.length)

open scoped Classical in
/-- `calculate_zcr` from emotion.rs: sign changes between consecutive
samples over `len - 1`. -/
noncomputable def calculate_zcr (samples : List ℝ) : ℝ :=
  if samples.length < 2 then 0
  else
    (((samples.zip samples.tail).filter
        fun p => rustSignum p.1 ≠ rustSignum p.2).length : ℝ)
      / ((samples.length - 1 : ℕ) : ℝ)

open scoped Classical in
/-- The body of the lag loop in `estimate_pitch_autocorr`: normalized
autocorrelation at one lag, keeping the lag of maximal correlation. -/
noncomputable def pitchStep (samples : List ℝ) (window_size : ℕ)
    (best : ℕ × ℝ) (lag : ℕ) : ℕ × ℝ :=
  let limit := window_size - lag
  let correlation :=
    ((List.range limit).map fun i => samples.getD i 0 * samples.getD (i + lag) 0).sum
  let norm1 := ((List.range limit).map fun i => samples.getD i 0 * samples.getD i 0).sum
  let norm2 :=
    ((List.range limit).map fun i => samples.getD (i + lag) 0 * samples.getD (i + lag) 0).sum
  let corr := if norm1 > 0 ∧ norm2 > 0 then correlation / Real.sqrt (norm1 * norm2) else 0
  if corr > best.2 then (lag, corr) else best

open scoped Classical in
/-- `estimate_pitch_autocorr` from emotion.rs (the `(sample_rate as f32 *
0.03) as usize` window size is the floor of the exact product). -/
noncomputable def estimate_pitch_autocorr (samples : List ℝ) (sample_rate : ℕ) : ℝ :=
  if samples.length < 256 then 0
  else
    let window_size := max (min (((sample_rate : ℚ) * 0.03).floor.toNat) samples.length) 64
    let min_lag := sample_rate / 400
    let max_lag := min (sample_rate / 50) (window_size / 2)
    let best := (List.range' min_lag (max_lag - min_lag)).foldl
      (pitchStep samples window_size) (0, 0)
    if best.2 > 0.3 ∧ best.1 > 0 then (sample_rate : ℝ) / (best.1 : ℝ) else 0

/-- Rust `slice::chunks`: consecutive chunks of at most `n` elements (empty
result for `n = 0`, where the Rust call would panic — unreachable from
`calculate_energy_variance`'s guard for the sample rates in use). -/
noncomputable def chunksOf (n : ℕ) (l : List ℝ) : List (List ℝ) :=
  if hn : n = 0 then []
  else if hl : l = [] then []
  else l.take n :: chunksOf n (l.drop n)
termination_by l.length
decreasing_by
  simp only [List.length_drop]
  have : 0 < l.length := List.length_pos.mpr hl
  omega

/-- `calculate_energy_variance` from emotion.rs: standard deviation of the
RMS of ~50 ms chunks. -/
noncomputable def calculate_energy_variance (samples : List ℝ) (sample_rate : ℕ) : ℝ :=
  let chunk_size := (((sample_rate : ℚ)) * 0.05).floor.toNat
  if samples.length < chunk_size * 2 then 0
  else
    let chunk_energies := (chunksOf chunk_size samples).map calculate_rms
    if chunk_energies = [] then 0
    else
      let mean := chunk_energies.sum / (chunk_energies.length : ℝ)
      let variance :=
        ((chunk_energies.map fun e => (e - mean) ^ 2).sum) / (chunk_energies.length : ℝ)
      Real.sqrt variance

/-- `extract_features` from emotion.rs. -/
noncomputable def extract_features (samples : List ℝ) (sample_rate : ℕ) : AudioFeatures where
  rms := calculate_rms samples
  zcr := calculate_zcr samples
  pitch_hz := estimate_pitch_autocorr samples sample_rate
  energy_variance := calculate_energy_variance samples sample_rate
  duration := (samples.length : ℝ) / (sample_rate : ℝ)
  sample_rate := sample_rate

/-- `EmotionAnalyzer::calculate_emotion_scores` from emotion.rs (the
`&self` receiver is unused by the Rust method body). -/
noncomputable def calculate_emotion_scores (features : AudioFeatures) : Emotion → ℝ :=
  let energy := rclamp (features.rms * 10) 0 1
  let zcr_norm := rclamp (features.zcr * 10) 0 1
  let pitch_norm := rclamp (features.pitch_hz / 300) 0 1
  let variance := rclamp (features.energy_variance * 50) 0 1
  let neutral := (1 - energy * 0.3) * (1 - variance * 0.3) * 0.8
  let happy := energy * 0.4 + pitch_norm * 0.3 + variance * 0.2
  let sad := (1 - energy) * 0.5 + (1 - pitch_norm) * 0.3 + (1 - variance) * 0.2
  let angry := energy * 0.5 + pitch_norm * 0.3 + variance * 0.4
  let fearful := (1 - energy) * 0.2 + pitch_norm * 0.4 + variance * 0.5
  let surprised := variance * 0.6 + pitch_norm * 0.3
  let disgusted := (1 - energy) * 0.4 + (1 - pitch_norm) * 0.3
  let total := neutral + happy + sad + angry + fearful + surprised + disgusted
  fun e =>
    match e with
    | .Neutral => neutral / total
    | .Happy => happy / total
    | .Sad => sad / total
    | .Angry => angry / total
    | .Fearful => fearful / total
    | .Surprised => surprised / total
    | .Disgusted => disgusted / total

open scoped Classical in
/-- The arg-max step of `EmotionAnalyzer::analyze` (the Rust code sorts the
score map descending and takes the head; for a unique maximum — the only
case the claims exercise — this equals keeping the strictly larger score
while scanning, which is order-independent). -/
noncomputable def argmaxEmotion (scores : Emotion → ℝ) : Emotion :=
  Emotion.all.foldl (fun best e => if scores e > scores best then e else best) .Neutral

open scoped Classical in
/-- `EmotionAnalyzer::analyze` from emotion.rs. -/
noncomputable def EmotionAnalyzer.analyze (a : EmotionAnalyzer) (samples : List ℝ)
    (sample_rate : ℕ) : Except EmotionError EmotionResult :=
  if a.initialized = false then .error .NotInitialized
  else if samples.length < 800 then .error .InsufficientData
  else
    let features := extract_features samples sample_rate
    let scores := calculate_emotion_scores features
    let primary := argmaxEmotion scores
    .ok ⟨primary, scores primary, scores⟩

/-- An analyzer after `EmotionAnalyzer::new()` followed by `init()`:
initialized, with the default sensitivity 0.5. -/
noncomputable def emotionInit : EmotionAnalyzer := ⟨true, 0.5⟩

/-! ### Feature extraction on silence -/

/-- Helper: the sum of squares of an all-zero list is 0. -/
theorem sq_sum_zero (l : List ℝ) (h : ∀ x ∈ l, x = 0) :
    (l.map fun s => s * s).sum = 0 := by
  apply List.sum_eq_zero
  intro x hx
  rcases List.mem_map.mp hx with ⟨s, hs, rfl⟩
  rw [h s hs]
  ring

/-- Helper: the RMS of an all-zero list is 0. -/
theorem calculate_rms_zero (l : List ℝ) (h : ∀ x ∈ l, x = 0) :
    calculate_rms l = 0 := by
  unfold calculate_rms
  split_ifs with hl
  · rfl
  · rw [sq_sum_zero l h]
    simp

/-- Helper: the zero-crossing rate of an all-zero list is 0. -/
theorem calculate_zcr_zero (l : List ℝ) (h : ∀ x ∈ l, x = 0) :
    calculate_zcr l = 0 := by
  unfold calculate_zcr
  split_ifs with hlen
  · rfl
  · have hfil : ((l.zip l.tail).filter
        fun p => rustSignum p.1 ≠ rustSignum p.2) = [] := by
      rw [List.filter_eq_nil_iff]
      intro p hp
      have h1 : p.1 = 0 := h p.1 (List.of_mem_zip hp).1
      have h2 : p.2 = 0 := h p.2 ((l.tail_sublist).mem (List.of_mem_zip hp).2)
      simp [rustSignum, h1, h2]
    rw [hfil]
    simp

/-- Helper: indexing into an all-zero list (with default 0) gives 0. -/
theorem getD_zero (l : List ℝ) (h : ∀ x ∈ l, x = 0) (i : ℕ) :
    l.getD i 0 = 0 := by
  rcases hg : l[i]? with _ | x
  · simp [List.getD, hg]
  · have hx : x ∈ l := by
      have := List.get?_mem (by rwa [List.get?_eq_getElem?])
      exact this
    simp [List.getD, hg, h x hx]

/-- Helper: a fold whose step fixes the accumulator returns it. -/
theorem foldl_const_of_fixed {α β : Type} (f : β → α → β) (b : β)
    (h : ∀ a, f b a = b) : ∀ l : List α, l.foldl f b = b := by
  intro l
  induction l with
  | nil => rfl
  | cons a l ih => rw [List.foldl_cons, h a]; exact ih

/-- Helper: the autocorrelation pitch of an all-zero list is 0. -/
theorem estimate_pitch_zero (l : List ℝ) (sr : ℕ) (h : ∀ x ∈ l, x = 0) :
    estimate_pitch_autocorr l sr = 0 := by
  unfold estimate_pitch_autocorr
  split_ifs with hlen
  · rfl
  · have hstep : ∀ lag, pitchStep l
        (max (min (((sr : ℚ) * 0.03).floor.toNat) l.length) 64) (0, 0) lag = (0, 0) := by
      intro lag
      unfold pitchStep
      dsimp only
      have hn1 : ((List.range ((max (min (((sr : ℚ) * 0.03).floor.toNat) l.length) 64) - lag)).map
          fun i => l.getD i 0 * l.getD i 0).sum = 0 := by
        apply List.sum_eq_zero
        intro x hx
        rcases List.mem_map.mp hx with ⟨i, _, rfl⟩
        rw [getD_zero l h i]
        ring
      rw [hn1]
      norm_num
    dsimp only
    rw [foldl_const_of_fixed _ _ hstep]
    norm_num

/-- Helper: every element of every chunk is an element of the list. -/
theorem mem_of_mem_chunksOf (n : ℕ) (l : List ℝ) :
    ∀ c ∈ chunksOf n l, ∀ x ∈ c, x ∈ l := by
  induction l using chunksOf.induct n with
  | case1 x hn => intro c hc; rw [chunksOf] at hc; simp [hn] at hc
  | case2 hn => intro c hc; rw [chunksOf] at hc; simp [hn] at hc
  | case3 x hn hx ih =>
      intro c hc
      rw [chunksOf, dif_neg hn, dif_neg hx] at hc
      rcases List.mem_cons.mp hc with h | h
      · intro y hy; exact List.mem_of_mem_take (h ▸ hy)
      · intro y hy; exact List.mem_of_mem_drop (ih c h y hy)

/-- Helper: the chunked energy variance of an all-zero list is 0. -/
theorem calculate_energy_variance_zero (l : List ℝ) (sr : ℕ)
    (h : ∀ x ∈ l, x = 0) : calculate_energy_variance l sr = 0 := by
  unfold calculate_energy_variance
  dsimp only
  split_ifs with h1 h2
  · rfl
  · rfl
  · have hall : ∀ e ∈ (chunksOf (((sr : ℚ) * 0.05).floor.toNat) l).map calculate_rms,
        e = 0 := by
      intro e he
      rcases List.mem_map.mp he with ⟨c, hc, rfl⟩
      exact calculate_rms_zero c fun x hx =>
        h x (mem_of_mem_chunksOf _ l c hc x hx)
    have hsum : ((chunksOf (((sr : ℚ) * 0.05).floor.toNat) l).map calculate_rms).sum = 0 :=
      List.sum_eq_zero hall
    rw [hsum]
    have hsq : (((chunksOf (((sr : ℚ) * 0.05).floor.toNat) l).map calculate_rms).map
        fun e => (e - 0 / (((chunksOf (((sr : ℚ) * 0.05).floor.toNat) l).map
          calculate_rms).length : ℝ)) ^ 2).sum = 0 := by
      apply List.sum_eq_zero
      intro x hx
      rcases List.mem_map.mp hx with ⟨e, he, rfl⟩
      rw [hall e he]
      norm_num
    rw [hsq]
    simp

/-- Helper: the feature vector of `n` zero samples. -/
theorem extract_features_zero (n sr : ℕ) :
    extract_features (List.replicate n 0) sr
      = ⟨0, 0, 0, 0, (n : ℝ) / (sr : ℝ), sr⟩ := by
  have h : ∀ x ∈ List.replicate n (0 : ℝ), x = 0 :=
    fun x hx => List.eq_of_mem_replicate hx
  unfold extract_features
  rw [calculate_rms_zero _ h, calculate_zcr_zero _ h, estimate_pitch_zero _ _ h,
    calculate_energy_variance_zero _ _ h]
  simp

/-! ### Emotion scoring theorems (C5, C6) -/

/-- The normalized emotion scores produced for any silent segment
(rms = zcr = pitch = variance = 0): the unnormalized scores
(0.8, 0, 1.0, 0, 0.2, 0, 0.7) divided by their total 2.7. -/
noncomputable def silenceScores : Emotion → ℝ := fun e =>
  match e with
  | .Neutral => 8 / 27
  | .Happy => 0
  | .Sad => 10 / 27
  | .Angry => 0
  | .Fearful => 2 / 27
  | .Surprised => 0
  | .Disgusted => 7 / 27

/-- Helper: the scores of any feature vector with zero rms, pitch and
variance are `silenceScores`. -/
theorem calculate_emotion_scores_silence (f : AudioFeatures)
    (h1 : f.rms = 0) (h3 : f.pitch_hz = 0) (h4 : f.energy_variance = 0) :
    calculate_emotion_scores f = silenceScores := by
  funext e
  cases e <;>
    simp only [calculate_emotion_scores, silenceScores, h1, h3, h4, rclamp] <;>
    norm_num

/-- Helper: analyzing a long-enough all-zero segment succeeds, with scores
`silenceScores` and primary emotion Sad (confidence 10/27). -/
theorem analyze_silence (a : EmotionAnalyzer) (n sr : ℕ)
    (ha : a.initialized = true) (hn : 800 ≤ n) :
    a.analyze (List.replicate n 0) sr
      = .ok ⟨.Sad, 10 / 27, silenceScores⟩ := by
  unfold EmotionAnalyzer.analyze
  rw [ha]
  have hlen : ¬ (List.replicate n (0 : ℝ)).length < 800 := by
    simp only [List.length_replicate]
    omega
  rw [if_neg (by simp), if_neg hlen]
  have hf := extract_features_zero n sr
  have hs : calculate_emotion_scores (extract_features (List.replicate n 0) sr)
      = silenceScores := by
    rw [hf]
    exact calculate_emotion_scores_silence _ rfl rfl rfl
  dsimp only
  rw [hs]
  have hmax : argmaxEmotion silenceScores = .Sad := by
    unfold argmaxEmotion Emotion.all
    simp only [List.foldl_cons, List.foldl_nil, silenceScores]
    norm_num
  rw [hmax]
  have hconf : silenceScores .Sad = 10 / 27 := rfl
  rw [hconf]

/-- C5 (amended): for every analyzer that is initialized and every all-zero
segment of at least the 800-sample minimum, `analyze` succeeds and the
strictly highest of the seven scores is Sad — not Neutral — so the primary
emotion is Sad with confidence 10/27. -/
theorem C5_silence_amended (a : EmotionAnalyzer) (n sr : ℕ)
    (ha : a.initialized = true) (hn : 800 ≤ n) :
    a.analyze (List.replicate n 0) sr = .ok ⟨.Sad, 10 / 27, silenceScores⟩ ∧
    (∀ e, e ≠ Emotion.Sad → silenceScores e < silenceScores Emotion.Sad) := by
  refine ⟨analyze_silence a n sr ha hn, ?_⟩
  intro e he
  cases e <;> simp only [silenceScores] <;> norm_num
  exact absurd rfl he

/-- Witness for the amended C5: the initialized analyzer on 16000 zero
samples at 16 kHz returns Sad, and the Happy score is below the Sad
score. -/
theorem C5_silence_amended_witness :
    emotionInit.analyze (List.replicate 16000 0) 16000
      = .ok ⟨.Sad, 10 / 27, silenceScores⟩ ∧
    silenceScores Emotion.Happy < silenceScores Emotion.Sad := by
  have h := C5_silence_amended emotionInit 16000 16000 rfl (by norm_num)
  exact ⟨h.1, h.2 Emotion.Happy (by simp)⟩

/-- Counterexample to C5 as stated: on a silent segment the Neutral score
8/27 is strictly below the Sad score 10/27, so Neutral is not the highest
score and `analyze` returns Sad, not Neutral. -/
theorem C5_silence_counterexample :
    emotionInit.analyze (List.replicate 16000 0) 16000
      = .ok ⟨.Sad, 10 / 27, silenceScores⟩ ∧
    silenceScores Emotion.Neutral < silenceScores Emotion.Sad := by
  refine ⟨analyze_silence emotionInit 16000 16000 rfl (by norm_num), ?_⟩
  simp only [silenceScores]
  norm_num

/-- Helper: the 0-1 clamp really lands in [0, 1]. -/
theorem rclamp01_mem (x : ℝ) : 0 ≤ rclamp x 0 1 ∧ rclamp x 0 1 ≤ 1 :=
  ⟨le_min (le_max_right _ _) zero_le_one, min_le_right _ _⟩

/-- C6: for every feature vector with non-negative RMS, zero-crossing rate,
pitch and variance, the seven emotion scores sum to exactly 1 (hence to 1.0
within 1e-4), because the unnormalized total is strictly positive — the
Neutral term alone is at least 0.392 — and each score is the corresponding
term divided by that total; the Neutral score in particular is strictly
positive. -/
theorem C6_scores_sum_to_one (f : AudioFeatures) (h1 : 0 ≤ f.rms)
    (h2 : 0 ≤ f.zcr) (h3 : 0 ≤ f.pitch_hz) (h4 : 0 ≤ f.energy_variance) :
    (Emotion.all.map (calculate_emotion_scores f)).sum = 1 ∧
    |(Emotion.all.map (calculate_emotion_scores f)).sum - 1| ≤ 1e-4 ∧
    0 < calculate_emotion_scores f Emotion.Neutral := by
  obtain ⟨hE0, hE1⟩ := rclamp01_mem (f.rms * 10)
  obtain ⟨hP0, hP1⟩ := rclamp01_mem (f.pitch_hz / 300)
  obtain ⟨hV0, hV1⟩ := rclamp01_mem (f.energy_variance * 50)
  set E := rclamp (f.rms * 10) 0 1 with hEdef
  set P := rclamp (f.pitch_hz / 300) 0 1 with hPdef
  set V := rclamp (f.energy_variance * 50) 0 1 with hVdef
  have hneutral : (0.392 : ℝ) ≤ (1 - E * 0.3) * (1 - V * 0.3) * 0.8 := by
    nlinarith
  have htotal : (0 : ℝ) <
      (1 - E * 0.3) * (1 - V * 0.3) * 0.8
      + (E * 0.4 + P * 0.3 + V * 0.2)
      + ((1 - E) * 0.5 + (1 - P) * 0.3 + (1 - V) * 0.2)
      + (E * 0.5 + P * 0.3 + V * 0.4)
      + ((1 - E) * 0.2 + P * 0.4 + V * 0.5)
      + (V * 0.6 + P * 0.3)
      + ((1 - E) * 0.4 + (1 - P) * 0.3) := by
    nlinarith
  have hsum : (Emotion.all.map (calculate_emotion_scores f)).sum = 1 := by
    simp only [Emotion.all, List.map_cons, List.map_nil, List.sum_cons, List.sum_nil,
      calculate_emotion_scores, ← hEdef, ← hPdef, ← hVdef]
    field_simp
    ring
  refine ⟨hsum, by rw [hsum]; norm_num, ?_⟩
  show (0 : ℝ) < _
  simp only [calculate_emotion_scores, ← hEdef, ← hPdef, ← hVdef]
  apply div_pos (by nlinarith) htotal

/-- Witness for C6: the all-zero feature vector satisfies the
non-negativity hypotheses, its scores sum to 1, and its Neutral score is
positive. -/
theorem C6_scores_sum_to_one_witness :
    ((0 : ℝ) ≤ 0) ∧
    (Emotion.all.map (calculate_emotion_scores ⟨0, 0, 0, 0, 1, 16000⟩)).sum = 1 ∧
    0 < calculate_emotion_scores ⟨0, 0, 0, 0, 1, 16000⟩ Emotion.Neutral := by
  have h := C6_scores_sum_to_one ⟨0, 0, 0, 0, 1, 16000⟩
    le_rfl le_rfl le_rfl le_rfl
  exact ⟨le_rfl, h.1, h.2.2⟩

/-! ## detection/speaker.rs -/

/-- The `SpeakerEmbedding` struct from speaker.rs. -/
structure SpeakerEmbedding where
  data : List ℝ
  dimension : ℕ

/-- `SpeakerEmbedding::new` from speaker.rs. -/
def SpeakerEmbedding.new (data : List ℝ) : SpeakerEmbedding :=
  ⟨data, data.length⟩

open scoped Classical in
/-- `SpeakerEmbedding::cosine_similarity` from speaker.rs: zipped dot
product over the full norms, 0 when either vector is empty or has zero
norm. -/
noncomputable def SpeakerEmbedding.cosine_similarity
    (a b : SpeakerEmbedding) : ℝ :=
  if a.data = [] ∨ b.data = [] then 0
  else
    let dot_product := ((a.data.zip b.data).map fun p => p.1 * p.2).sum
    let norm_a := Real.sqrt ((a.data.map fun x => x * x).sum)
    let norm_b := Real.sqrt ((b.data.map fun x => x * x).sum)
    if norm_a = 0 ∨ norm_b = 0 then 0
    else dot_product / (norm_a * norm_b)

/-- Helper: a sum of squares is non-negative. -/
theorem sq_sum_nonneg (l : List ℝ) : 0 ≤ (l.map fun x => x * x).sum := by
  apply List.sum_nonneg
  intro x hx
  rcases List.mem_map.mp hx with ⟨s, _, rfl⟩
  exact mul_self_nonneg s

/-- C10: for embeddings of any (in particular different) dimensions, both
non-empty and neither of zero norm, `cosine_similarity` hits no guard: it
returns the dot product of the zipped vectors (the common prefix of the
shorter length) divided by the product of the full norms of both
vectors. -/
theorem C10_cosine_similarity_zip (a b : SpeakerEmbedding)
    (hd : a.dimension ≠ b.dimension)
    (ha : a.data ≠ []) (hb : b.data ≠ [])
    (hna : (a.data.map fun x => x * x).sum ≠ 0)
    (hnb : (b.data.map fun x => x * x).sum ≠ 0) :
    a.cosine_similarity b
      = ((a.data.zip b.data).map fun p => p.1 * p.2).sum
        / (Real.sqrt ((a.data.map fun x => x * x).sum)
           * Real.sqrt ((b.data.map fun x => x * x).sum)) := by
  unfold SpeakerEmbedding.cosine_similarity
  rw [if_neg (by tauto)]
  dsimp only
  rw [if_neg ?hguard]
  case hguard =>
    rintro (h | h)
    · exact hna ((Real.sqrt_eq_zero (sq_sum_nonneg a.data)).mp h)
    · exact hnb ((Real.sqrt_eq_zero (sq_sum_nonneg b.data)).mp h)

/-- A 2-dimensional embedding [1, 2]. -/
def embA : SpeakerEmbedding := SpeakerEmbedding.new [1, 2]

/-- A 1-dimensional embedding [3]. -/
def embB : SpeakerEmbedding := SpeakerEmbedding.new [3]

/-- Witness for C10: the mismatched concrete embeddings [1,2] and [3]
produce `3 / (√5 · √9)` — no error and no sentinel 0. -/
theorem C10_cosine_similarity_zip_witness :
    embA.cosine_similarity embB = 3 / (Real.sqrt 5 * Real.sqrt 9) := by
  have h := C10_cosine_similarity_zip embA embB
    (by decide) (by simp [embA, SpeakerEmbedding.new])
    (by simp [embB, SpeakerEmbedding.new])
    (by norm_num [embA, SpeakerEmbedding.new])
    (by norm_num [embB, SpeakerEmbedding.new])
  rw [h]
  norm_num [embA, embB, SpeakerEmbedding.new]

/-! ## audio/engine.rs

The rodio output stream and sinks are modelled abstractly: a decoded source
is an opaque value plus a looping flag, decoding a file path is an oracle
`decode : String → Except AppError AudioSource` standing for
`File::open` + `rodio::Decoder::new` (whose failures the Rust code maps to
`AppError::Audio`), and `Sink::try_new` is an oracle
`sink_new : Except AppError Unit` (failures mapped to
`AppError::Playback`).  `SystemTime::now` becomes a `now_ms` parameter.
Volumes (`f32`) become ℚ. -/

/-- The variants of `AppError` used by engine.rs (messages dropped). -/
inductive AppError
  | Audio
  | Playback
deriving DecidableEq, Repr

/-- `CrossfadeType` from engine.rs. -/
inductive CrossfadeType
  | Instant
  | Quick
  | Musical
  | Long
deriving DecidableEq, Repr

/-- `CrossfadeType::duration_ms` from engine.rs. -/
def CrossfadeType.duration_ms : CrossfadeType → ℕ
  | .Instant => 0
  | .Quick => 500
  | .Musical => 2000
  | .Long => 5000

/-- The `Track` struct from engine.rs. -/
structure Track where
  id : String
  name : String
  file_path : String
  genre : Option String
  mood : Option String
  is_looping : Bool
  duration_ms : Option ℕ
  bpm : Option ℚ
deriving DecidableEq, Repr

/-- `EngineConfig` from engine.rs. -/
structure EngineConfig where
  master_volume : ℚ
  music_volume : ℚ
  sfx_volume : ℚ
  crossfade_type : CrossfadeType
  ducking_amount : ℚ
  ducking_fade_ms : ℕ
deriving DecidableEq, Repr

/-- `EngineConfig::default` from engine.rs. -/
def EngineConfig.default : EngineConfig :=
  ⟨1, 0.7, 0.8, .Musical, 0.3, 200⟩

/-- `PlayingTrack` from engine.rs. -/
structure PlayingTrack where
  track : Track
  started_at_ms : ℕ
  is_looping : Bool
deriving DecidableEq, Repr

/-- `EngineState` from engine.rs. -/
inductive EngineState
  | Idle
  | Playing
  | Paused
  | Transitioning
deriving DecidableEq, Repr

/-- A decoded rodio source: an opaque decoder value plus whether
`repeat_infinite` was applied. -/
structure AudioSource where
  id : ℕ
  looped : Bool
deriving DecidableEq, Repr

/-- A rodio `Sink` holding one appended source and its volume. -/
structure Sink where
  source : AudioSource
  volume : ℚ
deriving DecidableEq, Repr

/-- The `AudioEngine` struct from engine.rs (stream handles abstracted
away; the `RwLock`s are plain fields in this single-threaded model). -/
structure AudioEngine where
  music_sink : Option Sink
  config : EngineConfig
  state : EngineState
  current_track : Option PlayingTrack
  is_ducking : Bool
deriving DecidableEq, Repr

namespace AudioEngine

/-- `AudioEngine::calculate_music_volume` from engine.rs. -/
def calculate_music_volume (e : AudioEngine) : ℚ :=
  let base_volume := e.config.music_volume * e.config.master_volume
  if e.is_ducking then base_volume * e.config.ducking_amount else base_volume

/-- `AudioEngine::stop_music` from engine.rs. -/
def stop_music (e : AudioEngine) : AudioEngine :=
  { e with music_sink := none, state := .Idle, current_track := none }

/-- `AudioEngine::play_track` from engine.rs: stop current playback, make a
sink, decode (looping if requested), set the effective volume, record the
track, move to Playing. -/
def play_track (sink_new : Except AppError Unit)
    (decode : String → Except AppError AudioSource) (now_ms : ℕ)
    (e : AudioEngine) (track : Track) : AudioEngine × Except AppError Unit :=
  let e := stop_music e
  match sink_new with
  | .error err => (e, .error err)
  | .ok _ =>
    match decode track.file_path with
    | .error err => (e, .error err)
    | .ok source =>
        let source := if track.is_looping then { source with looped := true } else source
        let volume := calculate_music_volume e
        ({ e with music_sink := some ⟨source, volume⟩,
                  state := .Playing,
                  current_track := some ⟨track, now_ms, track.is_looping⟩ },
         .ok ())

/-- `AudioEngine::crossfade_to` from engine.rs: with `Instant` configured
it delegates to `play_track`; otherwise it prepares the next sink at volume
0.0, passes through Transitioning and settles in Playing with the new
track recorded (the Rust body computes `crossfade_ms` and a target volume
but performs no actual ramp). -/
def crossfade_to (sink_new : Except AppError Unit)
    (decode : String → Except AppError AudioSource) (now_ms : ℕ)
    (e : AudioEngine) (track : Track) : AudioEngine × Except AppError Unit :=
  let crossfade_type := e.config.crossfade_type
  if crossfade_type = .Instant then
    play_track sink_new decode now_ms e track
  else
    match sink_new with
    | .error err => (e, .error err)
    | .ok _ =>
      match decode track.file_path with
      | .error err => (e, .error err)
      | .ok source =>
          let source := if track.is_looping then { source with looped := true } else source
          let next_sink : Sink := ⟨source, 0⟩
          ({ e with music_sink := some next_sink,
                    state := .Playing,
                    current_track := some ⟨track, now_ms, track.is_looping⟩ },
           .ok ())

end AudioEngine

/-- C8: with crossfade type `Instant` configured, `crossfade_to` leaves the
engine in exactly the state `play_track` leaves it in — the two calls are
equal on every engine, track, decode outcome and clock — and on success
that state is Playing with the given track recorded and the effective
volume `music_volume × master_volume × (ducking_amount if ducking)`. -/
theorem C8_crossfade_instant_eq_play (sink_new : Except AppError Unit)
    (decode : String → Except AppError AudioSource) (now_ms : ℕ)
    (e : AudioEngine) (track : Track)
    (h : e.config.crossfade_type = .Instant) :
    AudioEngine.crossfade_to sink_new decode now_ms e track
      = AudioEngine.play_track sink_new decode now_ms e track ∧
    (∀ src, sink_new = .ok () → decode track.file_path = .ok src →
      (AudioEngine.crossfade_to sink_new decode now_ms e track).1.state
          = .Playing ∧
      (AudioEngine.crossfade_to sink_new decode now_ms e track).1.current_track
          = some ⟨track, now_ms, track.is_looping⟩ ∧
      ((AudioEngine.crossfade_to sink_new decode now_ms e track).1.music_sink.map
          Sink.volume)
          = some (AudioEngine.calculate_music_volume (AudioEngine.stop_music e))) := by
  have heq : AudioEngine.crossfade_to sink_new decode now_ms e track
      = AudioEngine.play_track sink_new decode now_ms e track := by
    unfold AudioEngine.crossfade_to
    rw [if_pos h]
  refine ⟨heq, ?_⟩
  intro src hsink hdec
  rw [heq]
  unfold AudioEngine.play_track
  rw [hsink, hdec]
  simp

/-- A concrete non-looping track. -/
def trackTavern : Track :=
  ⟨"t1", "Tavern", "tavern.ogg", none, none, false, none, none⟩

/-- A concrete idle engine configured with `Instant` crossfades. -/
def engineInstant : AudioEngine :=
  ⟨none, ⟨1, 0.7, 0.8, .Instant, 0.3, 200⟩, .Idle, none, false⟩

/-- Witness for C8: on the concrete Instant-configured engine with a
decoder that succeeds, `crossfade_to` equals `play_track` and ends Playing
with the track recorded. -/
theorem C8_crossfade_instant_eq_play_witness :
    (AudioEngine.crossfade_to (.ok ()) (fun _ => .ok ⟨0, false⟩) 5
        engineInstant trackTavern
      = AudioEngine.play_track (.ok ()) (fun _ => .ok ⟨0, false⟩) 5
        engineInstant trackTavern) ∧
    (AudioEngine.crossfade_to (.ok ()) (fun _ => .ok ⟨0, false⟩) 5
        engineInstant trackTavern).1.state = .Playing := by
  have h := C8_crossfade_instant_eq_play (.ok ()) (fun _ => .ok ⟨0, false⟩) 5
    engineInstant trackTavern (by decide)
  exact ⟨h.1, (h.2 ⟨0, false⟩ rfl rfl).1⟩

/-! ## detection/pipeline.rs

The pipeline owns the VAD, the keyword vocabulary (the `KeywordDetector`
wrapper contributes only its `fuzzy_threshold` field), the emotion
analyzer and the FSM.  The Whisper transcriber is the external
speech-to-text collaborator and is passed as an oracle
`transcribe : List ℝ → ℕ → Except Unit Transcription`; `Instant::now()`
becomes a `now` parameter; the event channel is modelled by returning the
list of emitted events in order.  The `SpeakerVerifier` member is never
used by `process_audio`/`process_segment` and is omitted. -/

/-- `Transcription` from inference/whisper.rs (text as a character list to
feed the keyword search). -/
structure Transcription where
  text : Str
  language : Option String
  confidence : ℝ

/-- `PipelineConfig` from pipeline.rs. -/
structure PipelineConfig where
  enable_vad : Bool
  enable_speaker_verification : Bool
  enable_transcription : Bool
  enable_emotion : Bool
  vad_threshold : ℝ
  transcription_segment_ms : ℕ
  detection_timeout_ms : ℕ
  cooldown_ms : ℕ

/-- `PipelineConfig::default` from pipeline.rs. -/
noncomputable def PipelineConfig.default : PipelineConfig :=
  ⟨true, false, true, true, 0.5, 8000, 10000, 3000⟩

/-- `PipelineEvent` from pipeline.rs. -/
inductive PipelineEvent
  | VoiceStart (t : ℕ)
  | VoiceEnd (start_ms end_ms : ℕ)
  | Transcription (text : Str)
  | Keyword (kw : Str)
  | Emotion (emotion : String) (conf : ℝ)
  | DualSignal (keyword : String) (emotion : String)
  | SpeakerVerified (verified : Bool)
  | Error (msg : String)

/-- The `Display` impl of `Emotion` (`result.primary.to_string()`). -/
def Emotion.toString : Emotion → String
  | .Neutral => "neutral"
  | .Happy => "happy"
  | .Sad => "sad"
  | .Angry => "angry"
  | .Fearful => "fearful"
  | .Surprised => "surprised"
  | .Disgusted => "disgusted"

/-- The `DetectionPipeline` struct from pipeline.rs. -/
structure DetectionPipeline where
  config : PipelineConfig
  vad : VoiceActivityDetector
  keyword_vocab : KeywordVocabulary
  fuzzy_threshold : ℚ
  emotion_analyzer : EmotionAnalyzer
  fsm : DetectionFsm
  audio_buffer : List ℝ
  segment_buffer : List ℝ
  sample_rate : ℕ
  last_voice_time : Option ℕ
  is_running : Bool

/-- `DetectionPipeline::process_segment` from pipeline.rs: take the
segment buffer; if transcription is enabled and succeeds with non-empty
text, emit it, feed `KeywordMatched` to the FSM and emit `Keyword` for
each match; if emotion analysis is enabled and succeeds, feed
`EmotionDetected` to the FSM and emit `Emotion`; finally emit `DualSignal`
when the FSM has both signals confirmed. -/
noncomputable def DetectionPipeline.process_segment
    (transcribe : List ℝ → ℕ → Except Unit Transcription)
    (p : DetectionPipeline) : DetectionPipeline × List PipelineEvent :=
  if p.segment_buffer = [] then (p, [])
  else
    let segment := p.segment_buffer
    let p1 := { p with segment_buffer := [] }
    let tk :=
      if p1.config.enable_transcription then
        match transcribe segment p1.sample_rate with
        | .ok result =>
            if result.text = [] then (p1, [])
            else
              let ms := p1.keyword_vocab.search result.text
              let fk := ms.foldl
                (fun acc m =>
                  (DetectionFsm.process_event acc.1 (.KeywordMatched ⟨m.keyword⟩),
                   acc.2 ++ [PipelineEvent.Keyword m.keyword]))
                (p1.fsm, ([] : List PipelineEvent))
              ({ p1 with fsm := fk.1 },
               PipelineEvent.Transcription result.text :: fk.2)
        | .error _ => (p1, [])
      else (p1, [])
    let p2 := tk.1
    let em :=
      if p2.config.enable_emotion then
        match p2.emotion_analyzer.analyze segment p2.sample_rate with
        | .ok result =>
            let ev := DetectionEvent.EmotionDetected result.primary.toString result.confidence
            ({ p2 with fsm := p2.fsm.process_event ev },
             [PipelineEvent.Emotion result.primary.toString result.confidence])
        | .error _ => (p2, [])
      else (p2, [])
    let p3 := em.1
    let dual :=
      if p3.fsm.is_dual_signal_confirmed then
        match p3.fsm.last_keyword, p3.fsm.last_emotion with
        | some kw, some emo => [PipelineEvent.DualSignal kw emo]
        | _, _ => []
      else []
    (p3, tk.2 ++ em.2 ++ dual)

/-- `DetectionPipeline::process_audio` from pipeline.rs: while running,
append the frame to both buffers; with VAD enabled, feed `VoiceDetected`
into the FSM and emit `VoiceStart` on a speech frame, or emit `VoiceEnd`
(only — no FSM event) when the VAD reports a concluded segment; then run
segment processing once the segment buffer reaches the configured
duration. -/
noncomputable def DetectionPipeline.process_audio
    (transcribe : List ℝ → ℕ → Except Unit Transcription)
    (now : ℕ) (p : DetectionPipeline) (samples : List ℝ) (timestamp_ms : ℕ) :
    DetectionPipeline × List PipelineEvent :=
  if p.is_running = false then (p, [])
  else
    let p1 := { p with audio_buffer := p.audio_buffer ++ samples,
                       segment_buffer := p.segment_buffer ++ samples }
    let pv :=
      if p1.config.enable_vad then
        let vr := p1.vad.process_frame samples timestamp_ms
        let p2 := { p1 with vad := vr.1 }
        if vr.2.is_speech then
          ({ p2 with last_voice_time := some now,
                     fsm := p2.fsm.process_event .VoiceDetected },
           [PipelineEvent.VoiceStart timestamp_ms])
        else
          match vr.2.start_ms with
          | some start => (p2, [PipelineEvent.VoiceEnd start timestamp_ms])
          | none => (p2, [])
      else (p1, [])
    let p3 := pv.1
    let segment_samples := (p3.sample_rate * p3.config.transcription_segment_ms) / 1000
    if p3.segment_buffer.length ≥ segment_samples then
      let ps := DetectionPipeline.process_segment transcribe p3
      (ps.1, pv.2 ++ ps.2)
    else
      (p3, pv.2)

/-! ### Pipeline VAD forwarding theorems (C7) -/

/-- Helper: a running pipeline with VAD enabled, on a frame classified as
speech (and with the segment buffer still below its threshold), feeds
`VoiceDetected` into the FSM and emits exactly `VoiceStart`. -/
theorem process_audio_speech_frame
    (transcribe : List ℝ → ℕ → Except Unit Transcription)
    (now : ℕ) (p : DetectionPipeline) (samples : List ℝ) (t : ℕ)
    (hrun : p.is_running = true) (hvad : p.config.enable_vad = true)
    (hseg : p.segment_buffer.length + samples.length
      < (p.sample_rate * p.config.transcription_segment_ms) / 1000)
    (hsp : (p.vad.process_frame samples t).2.is_speech = true) :
    DetectionPipeline.process_audio transcribe now p samples t
      = ({ p with audio_buffer := p.audio_buffer ++ samples,
                  segment_buffer := p.segment_buffer ++ samples,
                  vad := (p.vad.process_frame samples t).1,
                  last_voice_time := some now,
                  fsm := p.fsm.process_event .VoiceDetected },
         [PipelineEvent.VoiceStart t]) := by
  unfold DetectionPipeline.process_audio
  rw [hrun]
  rw [if_neg (by simp)]
  dsimp only
  rw [hvad, if_pos rfl, hsp, if_pos rfl]
  dsimp only
  rw [List.length_append, if_neg (by omega)]

/-- Helper: a running pipeline with VAD enabled, on a frame concluding a
speech segment (non-speech with a pending start timestamp, segment buffer
below threshold), emits exactly the `VoiceEnd` pipeline event and leaves
the FSM untouched — no `VoiceEnded` event is fed into it. -/
theorem process_audio_segment_end
    (transcribe : List ℝ → ℕ → Except Unit Transcription)
    (now : ℕ) (p : DetectionPipeline) (samples : List ℝ) (t : ℕ) (start : ℕ)
    (hrun : p.is_running = true) (hvad : p.config.enable_vad = true)
    (hseg : p.segment_buffer.length + samples.length
      < (p.sample_rate * p.config.transcription_segment_ms) / 1000)
    (hsp : (p.vad.process_frame samples t).2.is_speech = false)
    (hst : (p.vad.process_frame samples t).2.start_ms = some start) :
    DetectionPipeline.process_audio transcribe now p samples t
      = ({ p with audio_buffer := p.audio_buffer ++ samples,
                  segment_buffer := p.segment_buffer ++ samples,
                  vad := (p.vad.process_frame samples t).1 },
         [PipelineEvent.VoiceEnd start t]) := by
  unfold DetectionPipeline.process_audio
  rw [hrun]
  rw [if_neg (by simp)]
  dsimp only
  rw [hvad, if_pos rfl, hsp]
  rw [if_neg (show ¬(false = true) by simp)]
  rw [hst]
  dsimp only
  rw [List.length_append, if_neg (by omega)]

/-- C7 (amended): for every frame processed while the pipeline is running
with VAD enabled (segment buffer below its threshold): a speech frame
feeds `VoiceDetected` into the FSM and emits `VoiceStart`; a frame on
which the VAD reports a concluded segment emits only the `VoiceEnd`
pipeline event — the FSM receives no `VoiceEnded` event and is left
unchanged. -/
theorem C7_vad_forwarding_amended
    (transcribe : List ℝ → ℕ → Except Unit Transcription)
    (now : ℕ) (p : DetectionPipeline) (samples : List ℝ) (t : ℕ)
    (hrun : p.is_running = true) (hvad : p.config.enable_vad = true)
    (hseg : p.segment_buffer.length + samples.length
      < (p.sample_rate * p.config.transcription_segment_ms) / 1000) :
    ((p.vad.process_frame samples t).2.is_speech = true →
      DetectionPipeline.process_audio transcribe now p samples t
        = ({ p with audio_buffer := p.audio_buffer ++ samples,
                    segment_buffer := p.segment_buffer ++ samples,
                    vad := (p.vad.process_frame samples t).1,
                    last_voice_time := some now,
                    fsm := p.fsm.process_event .VoiceDetected },
           [PipelineEvent.VoiceStart t])) ∧
    (∀ start, (p.vad.process_frame samples t).2.is_speech = false →
      (p.vad.process_frame samples t).2.start_ms = some start →
      DetectionPipeline.process_audio transcribe now p samples t
        = ({ p with audio_buffer := p.audio_buffer ++ samples,
                    segment_buffer := p.segment_buffer ++ samples,
                    vad := (p.vad.process_frame samples t).1 },
           [PipelineEvent.VoiceEnd start t])) :=
  ⟨fun hsp => process_audio_speech_frame transcribe now p samples t hrun hvad hseg hsp,
   fun start hsp hst =>
     process_audio_segment_end transcribe now p samples t start hrun hvad hseg hsp hst⟩

/-- A transcription oracle that always fails (segment processing is not
reached in the scenarios below). -/
def transNone : List ℝ → ℕ → Except Unit Transcription := fun _ _ => .error ()

/-- A machine sitting in `Detecting` with no signals confirmed. -/
def fsmDetecting : DetectionFsm :=
  ⟨.Detecting, .Autonomous, false, false, none, none, 0, 300⟩

/-- A running default-configured pipeline whose VAD is inside a speech
segment (started at 0) and whose FSM is in `Detecting`. -/
noncomputable def pipeSpeaking : DetectionPipeline :=
  ⟨PipelineConfig.default, vadSpeaking, KeywordVocabulary.new, 0.7,
   emotionInit, fsmDetecting, [], [], 16000, none, true⟩

/-- A running default-configured pipeline with an idle VAD and a fresh
FSM. -/
noncomputable def pipeIdle : DetectionPipeline :=
  ⟨PipelineConfig.default, vadIdle, KeywordVocabulary.new, 0.7,
   emotionInit, DetectionFsm.new, [], [], 16000, none, true⟩

/-- Helper: the VAD result of `pipeSpeaking` on an all-zero frame at
t = 100: non-speech, with the concluded segment [0, 100]. -/
theorem pipeSpeaking_vad_frame :
    pipeSpeaking.vad.process_frame (List.replicate 160 0) 100
      = ({ vadSpeaking with is_speaking := false, speech_start_ms := none },
         { is_speech := false, confidence := 1,
           start_ms := some 0, end_ms := some 100 }) := by
  have h := process_frame_zero_speaking vadSpeaking 160 100
    (by norm_num [vadSpeaking, VAD_THRESHOLD]) rfl
  exact h

/-- Counterexample to C7 as stated: the concrete running pipeline, in FSM
state `Detecting` with no signals, processes a frame that concludes a
speech segment; the `VoiceEnd` pipeline event is emitted but the FSM stays
in `Detecting` — whereas feeding `VoiceEnded` as the claim asserts would
move it to `Listening`. -/
theorem C7_vad_forwarding_counterexample :
    (DetectionPipeline.process_audio transNone 0 pipeSpeaking
        (List.replicate 160 0) 100).2 = [PipelineEvent.VoiceEnd 0 100] ∧
    (DetectionPipeline.process_audio transNone 0 pipeSpeaking
        (List.replicate 160 0) 100).1.fsm.state = .Detecting ∧
    (pipeSpeaking.fsm.process_event .VoiceEnded).state = .Listening := by
  have h := process_audio_segment_end transNone 0 pipeSpeaking
    (List.replicate 160 0) 100 0 rfl rfl
    (by norm_num [pipeSpeaking, PipelineConfig.default])
    (by rw [pipeSpeaking_vad_frame])
    (by rw [pipeSpeaking_vad_frame])
  rw [h]
  refine ⟨rfl, rfl, ?_⟩
  show (fsmDetecting.process_event .VoiceEnded).state = .Listening
  simp [fsmDetecting, DetectionFsm.process_event]

/-- Helper: a single full-scale sample is classified as speech by the
default-threshold idle detector. -/
theorem vadIdle_one_is_speech :
    (vadIdle.process_frame [1] 100).2.is_speech = true := by
  have h1 : VoiceActivityDetector.compute_energy [1] = 1 := by
    unfold VoiceActivityDetector.compute_energy
    rw [if_neg (by simp)]
    norm_num
  have hgt : VoiceActivityDetector.compute_energy [1] > vadIdle.threshold := by
    rw [h1]
    norm_num [vadIdle, VAD_THRESHOLD]
  simp only [VoiceActivityDetector.process_frame, vadIdle]
  rw [h1]
  have hdec : decide ((1 : ℝ) > VAD_THRESHOLD) = true :=
    decide_eq_true (by norm_num [VAD_THRESHOLD])
  simp [hdec]

/-- Witness for the amended C7: the concrete idle pipeline on a speech
frame emits `VoiceStart` and feeds `VoiceDetected` into the FSM. -/
theorem C7_vad_forwarding_amended_witness :
    (DetectionPipeline.process_audio transNone 7 pipeIdle [1] 100).2
      = [PipelineEvent.VoiceStart 100] ∧
    (DetectionPipeline.process_audio transNone 7 pipeIdle [1] 100).1.fsm
      = pipeIdle.fsm.process_event .VoiceDetected := by
  have h := (C7_vad_forwarding_amended transNone 7 pipeIdle [1] 100 rfl rfl
    (by norm_num [pipeIdle, PipelineConfig.default])).1 vadIdle_one_is_speech
  rw [h]
  exact ⟨rfl, rfl⟩

end TTRPG
